import Mathlib

/-!
Verification of the graphjoiner core: a shallow embedding of the join-keyed
multimap (`JoinMap` / `toListMap`), the request-tree builder
(`collectFields` / `shouldIncludeNode` / `mergeFields`), and the recursive
field-resolution engine (`JoinType.fetch` / `Relationship.fetch` /
`extract` / `ScalarJoinType`), together with theorems about the properties
the specification states for them.

Conventions of the embedding:
* JavaScript scalar values (as they occur in join tuples and fetched rows)
  are modelled by `Scalar`; general values (after relationship results are
  attached to rows) by `Value`, with `Value.jsUndefined` standing for JavaScript
  `undefined` (a property read that misses).
* Thrown exceptions and `undefined`-dereference crashes are modelled with
  `Except`; promise plumbing is sequentialised (the engine awaits each
  collaborator before continuing, which is observationally equivalent for
  the pure properties proved here).
* Unbounded recursion (through lazily recursive type graphs and fragment
  maps) is modelled with an explicit fuel parameter; exhausting the fuel is
  the distinguished error `"out of fuel"` / `CollectError.outOfFuel`.
-/

namespace GraphJoiner

/-- Scalar values as they appear in join tuples: equality is structural and
type-sensitive, so `Scalar.str "1"` and `Scalar.int 1` are distinct, exactly
as `Immutable.is` / `lodash.isEqual` distinguish `"1"` from `1`. -/
inductive Scalar where
  | str (s : String)
  | int (n : Int)
  | bool (b : Bool)
  | null
deriving DecidableEq, Repr

/-- One step of `toListMap` (from `immutable.js`): append the value to the
bucket of its key if the key is present, otherwise add a fresh singleton
bucket at the end.  This is the association-list reading of
`if (!map.has(key)) map.set(key, []); map.get(key).push(value)`. -/
def toListMapStep {κ α : Type} [DecidableEq κ] :
    List (κ × List α) → κ → α → List (κ × List α)
  | [], k, v => [(k, [v])]
  | p :: rest, k, v =>
      if p.1 = k then (p.1, p.2 ++ [v]) :: rest else p :: toListMapStep rest k v

/-- Model of `toListMap` (`src/immutable.js`): fold the collection into a
keyed map of buckets, preserving first-seen key order and per-bucket
insertion order. -/
def toListMap {κ α : Type} [DecidableEq κ] (entries : List (κ × α)) :
    List (κ × List α) :=
  entries.foldl (fun m e => toListMapStep m e.1 e.2) []

/-- Lookup of a key in the bucket map, returning `none` when absent
(`Immutable.Map.get` without a default). -/
def jmGetOpt {κ α : Type} [DecidableEq κ] (m : List (κ × List α)) (k : κ) :
    Option (List α) :=
  (m.find? (fun p => decide (p.1 = k))).map (fun p => p.2)

/-- Lookup with a default: `Immutable.Map.get(key, defaultValue)`. -/
def jmGet {κ α : Type} [DecidableEq κ] (m : List (κ × List α)) (k : κ)
    (d : List α) : List α :=
  (jmGetOpt m k).getD d

/-- Model of `JoinMap` (`src/JoinMap.js`): `new JoinMap(results).get(k, d)`
where the results have already been rendered as key/value pairs (the
`Immutable.fromJS` conversion of a join-value array is modelled by using the
list itself, with its structural, type-sensitive equality, as the key). -/
def joinMapGet {κ α : Type} [DecidableEq κ] (entries : List (κ × α)) (k : κ)
    (d : List α) : List α :=
  jmGet (toListMap entries) k d

theorem jmGetOpt_step_self {κ α : Type} [DecidableEq κ]
    (m : List (κ × List α)) (k : κ) (v : α) :
    jmGetOpt (toListMapStep m k v) k = some ((jmGetOpt m k).getD [] ++ [v]) := by
  induction m with
  | nil => simp [toListMapStep, jmGetOpt]
  | cons p rest ih =>
      by_cases h : p.1 = k
      · simp [toListMapStep, jmGetOpt, h]
      · simp only [toListMapStep, if_neg h]
        simp only [jmGetOpt, List.find?_cons, decide_eq_true_eq, if_neg h] at ih ⊢
        simpa [h] using ih

theorem jmGetOpt_step_ne {κ α : Type} [DecidableEq κ]
    (m : List (κ × List α)) (k k' : κ) (v : α) (hne : k' ≠ k) :
    jmGetOpt (toListMapStep m k' v) k = jmGetOpt m k := by
  induction m with
  | nil => simp [toListMapStep, jmGetOpt, hne]
  | cons p rest ih =>
      by_cases h : p.1 = k'
      · simp [toListMapStep, jmGetOpt, List.find?_cons, h, hne]
      · by_cases hk : p.1 = k
        · simp [toListMapStep, jmGetOpt, List.find?_cons, h, hk, Ne.symm hne]
        · simp only [toListMapStep, if_neg h]
          simp only [jmGetOpt, List.find?_cons] at ih ⊢
          simp [hk, ih]

/-- The values grouped under a key are exactly the values of the entries
whose key is equal (structurally, hence type-sensitively) to it. -/
def bucketVals {κ α : Type} [DecidableEq κ] (entries : List (κ × α)) (k : κ) :
    List α :=
  (entries.filter (fun e => decide (e.1 = k))).map (fun e => e.2)

theorem jmGetOpt_toListMap_fold {κ α : Type} [DecidableEq κ]
    (entries : List (κ × α)) :
    ∀ (acc : List (κ × List α)) (k : κ),
      jmGetOpt (entries.foldl (fun m e => toListMapStep m e.1 e.2) acc) k
        = match jmGetOpt acc k with
          | some b => some (b ++ bucketVals entries k)
          | none =>
              match bucketVals entries k with
              | [] => none
              | v :: vs => some (v :: vs) := by
  induction entries with
  | nil =>
      intro acc k
      cases h : jmGetOpt acc k <;> simp [bucketVals, h]
  | cons e rest ih =>
      intro acc k
      by_cases he : e.1 = k
      · have hb : bucketVals (e :: rest) k = e.2 :: bucketVals rest k := by
          simp [bucketVals, he]
        rw [List.foldl_cons, ih (toListMapStep acc e.1 e.2) k]
        subst he
        rw [jmGetOpt_step_self acc e.1 e.2, hb]
        cases h : jmGetOpt acc e.1 <;> simp [h]
      · have hstep := jmGetOpt_step_ne acc k e.1 e.2 he
        have hb : bucketVals (e :: rest) k = bucketVals rest k := by
          simp [bucketVals, he]
        rw [List.foldl_cons, ih (toListMapStep acc e.1 e.2) k, hstep, hb]

theorem jmGet_toListMap {κ α : Type} [DecidableEq κ] (entries : List (κ × α))
    (k : κ) :
    jmGet (toListMap entries) k [] = bucketVals entries k := by
  unfold jmGet toListMap
  rw [jmGetOpt_toListMap_fold entries [] k]
  have h0 : jmGetOpt ([] : List (κ × List α)) k = none := by simp [jmGetOpt]
  rw [h0]
  cases h : bucketVals entries k <;> simp

/-- Lookup over a map built from projected pairs equals a filter of the
original list: the workhorse connecting `JoinMap.get` to element-wise
equality on join tuples. -/
theorem joinMapGet_filter {κ α β : Type} [DecidableEq κ] (l : List β)
    (kf : β → κ) (vf : β → α) (k : κ) :
    joinMapGet (l.map (fun b => (kf b, vf b))) k []
      = (l.filter (fun b => decide (kf b = k))).map vf := by
  unfold joinMapGet
  rw [jmGet_toListMap]
  unfold bucketVals
  rw [List.filter_map, List.map_map]
  rfl

/-- An entry of the `JoinMap` of `src/JoinMap.js`: a join-value tuple
together with an opaque value. -/
structure JoinMapEntry (α : Type) where
  joinValues : List Scalar
  value : α
deriving DecidableEq, Repr

/-- The `JoinMap` class interface of `src/JoinMap.js`: construct from a list
of `{joinValues, value}` results, then `get(joinValues, defaultValue)`. -/
def JoinMapEntry.get {α : Type} (results : List (JoinMapEntry α))
    (joinValues : List Scalar) (d : List α) : List α :=
  joinMapGet (results.map (fun r => (r.joinValues, r.value))) joinValues d

/-- A directive attached to a selection, with the resolved value of its
`if` argument (`getArgumentValues` is external argument coercion; the engine
only inspects the resolved value, so the model stores it directly;
`none` models an absent / unresolved argument). -/
structure Directive where
  name : String
  ifArg : Option Bool
deriving DecidableEq, Repr

/-- A node of a parsed selection set, as consumed by the request-tree
builder (`requests.js`): a field (with optional alias, resolved arguments,
directives and optional sub-selection set), a fragment spread, or an inline
fragment. -/
inductive SelNode where
  | field (aliasName : Option String) (name : String) (args : List (String × Scalar))
      (directives : List Directive) (selectionSet : Option (List SelNode))
  | fragmentSpread (name : String) (directives : List Directive)
  | inlineFragment (directives : List Directive) (selections : List SelNode)

/-- Directives carried by a selection node. -/
def SelNode.directives : SelNode → List Directive
  | .field _ _ _ ds _ => ds
  | .fragmentSpread _ ds => ds
  | .inlineFragment ds _ => ds

/-- Model of `requestedFieldKey`: `ast.alias ? ast.alias.value :
ast.name.value`.  An inline fragment has no `name` property, so reading it
is an `undefined` dereference, modelled by `none`. -/
def selKeyOpt : SelNode → Option String
  | .field a n _ _ _ => some (a.getD n)
  | .fragmentSpread n _ => some n
  | .inlineFragment _ _ => none

/-- The `selectionSet` property of a selection node (`none` when absent,
i.e. `undefined`, which is falsy in the `if (selection.selectionSet)`
test of `mergeFields`). -/
def SelNode.subSelections : SelNode → Option (List SelNode)
  | .field _ _ _ _ ss => ss
  | .fragmentSpread _ _ => none
  | .inlineFragment _ ss => some ss

/-- Errors of selection collection: an unknown directive
(`throw new Error("Unknown directive: ...")`), a spread of an undefined
fragment (an `undefined` dereference in `addFields`), or exhaustion of the
recursion fuel (the model of non-termination). -/
inductive CollectError where
  | outOfFuel
  | unknownDirective (name : String)
  | missingFragment (name : String)
deriving DecidableEq, Repr

/-- Model of the directive loop of `shouldIncludeNode`: walk the directives
in order; an `include` directive whose `if` argument resolved to `false`,
or a `skip` directive whose `if` argument resolved to `true`, excludes the
node immediately; any other directive name throws; otherwise continue. -/
def shouldIncludeDirs : List Directive → Except CollectError Bool
  | [] => .ok true
  | d :: rest =>
      if d.name = "include" then
        if d.ifArg = some false then .ok false else shouldIncludeDirs rest
      else if d.name = "skip" then
        if d.ifArg = some true then .ok false else shouldIncludeDirs rest
      else .error (.unknownDirective d.name)

/-- Model of `shouldIncludeNode` (`requests.js`). -/
def shouldIncludeNode (s : SelNode) : Except CollectError Bool :=
  shouldIncludeDirs s.directives

/-- Model of `selections.filter(shouldIncludeNode)`: `Array.prototype.filter`
evaluates the predicate on every element (in order) before `forEach` runs,
so a thrown directive error aborts before any selection is processed. -/
def filterIncluded : List SelNode → Except CollectError (List SelNode)
  | [] => .ok []
  | s :: rest => do
      let keep ← shouldIncludeNode s
      let rest' ← filterIncluded rest
      .ok (if keep then s :: rest' else rest')

/-- The two mutually recursive phases of `addFields` (`requests.js`),
defunctionalised so that the recursion is structural on the fuel:
`collect` filters a selection set by its directives and then expands it;
`expand` walks the kept selections, keeping field selections, inlining the
selection set of a named fragment at a spread, and recursing into inline
fragments. -/
inductive BuildCall where
  | collect (selections : List SelNode)
  | expand (selections : List SelNode)

/-- Lookup of a fragment definition's selection set by name
(`fragments[selection.name.value]`). -/
def lookupFragment (frags : List (String × List SelNode)) (n : String) :
    Option (List SelNode) :=
  (frags.find? (fun p => decide (p.1 = n))).map (fun p => p.2)

/-- Fuel-indexed model of `addFields` / `collectFields` (`requests.js`).
The source has no cycle detection whatsoever: a fragment spread simply
recurses into the fragment body, so the model spends one unit of fuel per
expansion and reports `CollectError.outOfFuel` when the (arbitrarily
chosen) fuel runs out. -/
def collectRun (frags : List (String × List SelNode)) :
    Nat → BuildCall → Except CollectError (List SelNode)
  | _, .expand [] => .ok []
  | 0, _ => .error .outOfFuel
  | fuel+1, .collect sels => do
      let kept ← filterIncluded sels
      collectRun frags fuel (.expand kept)
  | fuel+1, .expand (s :: rest) => do
      let first ← match s with
        | .field .. => .ok [s]
        | .fragmentSpread n _ =>
            match lookupFragment frags n with
            | some fsels => collectRun frags fuel (.collect fsels)
            | none => .error (.missingFragment n)
        | .inlineFragment _ ss => collectRun frags fuel (.collect ss)
      let rest' ← collectRun frags fuel (.expand rest)
      .ok (first ++ rest')

/-- Model of `collectFields(ast)` on a node whose selection set has the
given selections. -/
def collectFields (frags : List (String × List SelNode)) (fuel : Nat)
    (sels : List SelNode) : Except CollectError (List SelNode) :=
  collectRun frags fuel (.collect sels)

/-- The mutation `byKey[key].selectionSet.selections.push(...)` of
`mergeFields`: appends the new sub-selections to the sub-selection set of
the (unique) entry with the given key.  When that entry has no
`selectionSet` the source dereferences `undefined` and crashes, modelled by
an error. -/
def pushSubselections :
    List SelNode → String → List SelNode → Except String (List SelNode)
  | [], _, _ => .error "TypeError: no entry for key"
  | e :: rest, k, newSels =>
      if selKeyOpt e = some k then
        match e with
        | .field a n args ds (some ss) =>
            .ok (.field a n args ds (some (ss ++ newSels)) :: rest)
        | .field _ _ _ _ none =>
            .error "TypeError: cannot read selections of undefined"
        | .fragmentSpread _ _ =>
            .error "TypeError: cannot read selections of undefined"
        | .inlineFragment ds ss => .ok (.inlineFragment ds (ss ++ newSels) :: rest)
      else do
        let rest' ← pushSubselections rest k newSels
        .ok (e :: rest')

/-- The loop body of `mergeFields` (`requests.js`), carrying the ordered
list of merged selections (which mirrors the `byKey` object): a selection
whose key was already seen has its sub-selection set (if any) appended to
the first occurrence; otherwise it is appended to the output. -/
def mergeGo : List SelNode → List SelNode → Except String (List SelNode)
  | merged, [] => .ok merged
  | merged, s :: rest =>
      match selKeyOpt s with
      | none => .error "TypeError: cannot read value of undefined"
      | some k =>
          if merged.any (fun e => decide (selKeyOpt e = some k)) then
            match s.subSelections with
            | none => mergeGo merged rest
            | some newSels => do
                let merged' ← pushSubselections merged k newSels
                mergeGo merged' rest
          else mergeGo (merged ++ [s]) rest

/-- Model of `mergeFields` (`requests.js`). -/
def mergeFields (sels : List SelNode) : Except String (List SelNode) :=
  mergeGo [] sels

/-- Run-time values of the engine: a scalar, an array (a `many`
relationship result), an object (an assembled row value), or JavaScript
`undefined` (a missing property). -/
inductive Value where
  | scalar (s : Scalar)
  | varr (vs : List Value)
  | vobj (kvs : List (String × Value))
  | jsUndefined

mutual

def Value.deq : (a b : Value) → Decidable (a = b)
  | .scalar a, .scalar b =>
      match decEq a b with
      | isTrue h => isTrue (by rw [h])
      | isFalse h => isFalse (fun he => h (Value.scalar.inj he))
  | .scalar _, .varr _ => isFalse (fun h => Value.noConfusion h)
  | .scalar _, .vobj _ => isFalse (fun h => Value.noConfusion h)
  | .scalar _, .jsUndefined => isFalse (fun h => Value.noConfusion h)
  | .varr _, .scalar _ => isFalse (fun h => Value.noConfusion h)
  | .varr xs, .varr ys =>
      match Value.deqList xs ys with
      | isTrue h => isTrue (by rw [h])
      | isFalse h => isFalse (fun he => h (Value.varr.inj he))
  | .varr _, .vobj _ => isFalse (fun h => Value.noConfusion h)
  | .varr _, .jsUndefined => isFalse (fun h => Value.noConfusion h)
  | .vobj _, .scalar _ => isFalse (fun h => Value.noConfusion h)
  | .vobj _, .varr _ => isFalse (fun h => Value.noConfusion h)
  | .vobj xs, .vobj ys =>
      match Value.deqKvs xs ys with
      | isTrue h => isTrue (by rw [h])
      | isFalse h => isFalse (fun he => h (Value.vobj.inj he))
  | .vobj _, .jsUndefined => isFalse (fun h => Value.noConfusion h)
  | .jsUndefined, .scalar _ => isFalse (fun h => Value.noConfusion h)
  | .jsUndefined, .varr _ => isFalse (fun h => Value.noConfusion h)
  | .jsUndefined, .vobj _ => isFalse (fun h => Value.noConfusion h)
  | .jsUndefined, .jsUndefined => isTrue rfl

def Value.deqList : (xs ys : List Value) → Decidable (xs = ys)
  | [], [] => isTrue rfl
  | [], _ :: _ => isFalse (fun h => List.noConfusion h)
  | _ :: _, [] => isFalse (fun h => List.noConfusion h)
  | x :: xs, y :: ys =>
      match Value.deq x y, Value.deqList xs ys with
      | isTrue h1, isTrue h2 => isTrue (by rw [h1, h2])
      | isFalse h1, _ => isFalse (fun h => h1 (List.cons.inj h).1)
      | _, isFalse h2 => isFalse (fun h => h2 (List.cons.inj h).2)

def Value.deqKvs : (xs ys : List (String × Value)) → Decidable (xs = ys)
  | [], [] => isTrue rfl
  | [], _ :: _ => isFalse (fun h => List.noConfusion h)
  | _ :: _, [] => isFalse (fun h => List.noConfusion h)
  | (k1, v1) :: xs, (k2, v2) :: ys =>
      match decEq k1 k2, Value.deq v1 v2, Value.deqKvs xs ys with
      | isTrue h1, isTrue h2, isTrue h3 => isTrue (by rw [h1, h2, h3])
      | isFalse h1, _, _ =>
          isFalse (fun h => h1 (congrArg Prod.fst (List.cons.inj h).1))
      | _, isFalse h2, _ =>
          isFalse (fun h => h2 (congrArg Prod.snd (List.cons.inj h).1))
      | _, _, isFalse h3 => isFalse (fun h => h3 (List.cons.inj h).2)

end

instance : DecidableEq Value := Value.deq

/-- Cardinality of a relationship: `single` or `many`. -/
inductive Card where
  | one
  | many
deriving DecidableEq, Repr

/-- Reference to a relationship's target resolvable type: an ordinary
`JoinType` in the schema, named, or a `ScalarJoinType` wrapper (as created
by `extract`) around a target, projecting one of its field names. -/
inductive TargetRef where
  | plain (name : String)
  | scalarJoin (target : TargetRef) (fieldName : String)
deriving DecidableEq, Repr

/-- The data of a `Relationship` (`index.js`): target, join-key pairs in
`toPairs(join)` order (parent key first), cardinality (`processResults` is
`singleValue` for `single` and the identity for `many`), and a tag naming
the user-supplied `select` callback in the environment. -/
structure RelData where
  target : TargetRef
  join : List (String × String)
  card : Card
  selectTag : Nat
deriving DecidableEq, Repr

/-- A field definition on a `JoinType`: an immediate field (resolved by the
injected fetch callback) or a relationship. -/
inductive FieldRef where
  | immediate (name : String)
  | rel (r : RelData)
deriving DecidableEq, Repr

/-- A request node (`createRequest`): output key, the field definition it
resolves (absent for the operation root and for unknown fields), resolved
arguments, user-requested sub-selections, and the join selections injected
by an enclosing relationship. -/
inductive Request where
  | mk (key : String) (field : Option FieldRef) (args : List (String × Scalar))
      (selections : List Request) (joinSelections : List Request)

def Request.key : Request → String
  | .mk k _ _ _ _ => k

def Request.field : Request → Option FieldRef
  | .mk _ f _ _ _ => f

def Request.args : Request → List (String × Scalar)
  | .mk _ _ a _ _ => a

def Request.selections : Request → List Request
  | .mk _ _ _ s _ => s

def Request.joinSelections : Request → List Request
  | .mk _ _ _ _ j => j

/-- The spread `{...request, selections: ...}`. -/
def Request.withSelections : Request → List Request → Request
  | .mk k f a _ j, s => .mk k f a s j

/-- The spread `{...request, joinSelections: ...}`. -/
def Request.withJoinSelections : Request → List Request → Request
  | .mk k f a s _, j => .mk k f a s j

/-- A `JoinType`'s field table (the memoized result of its `fields()`
thunk). -/
structure TypeDef where
  fields : List (String × FieldRef)

/-- A fetched row: property name to value, with later assignments
(`result[key] = ...`) shadowing earlier properties. -/
abbrev Row := List (String × Value)

/-- Property read `row[k]`; a missing property is `undefined`. -/
def rowGet (row : Row) (k : String) : Value :=
  match row.find? (fun p => decide (p.1 = k)) with
  | some p => p.2
  | none => .jsUndefined

/-- Property write `row[k] = v` (reads after the write see `v`). -/
def rowSet (row : Row) (k : String) (v : Value) : Row :=
  (k, v) :: row

/-- A result row emitted by `JoinType.fetch`: the assembled `value` object
and the `joinValues` tuple used by the enclosing relationship's lookup. -/
structure ResultRow where
  value : Value
  joinValues : List Value
deriving DecidableEq

/-- The data of a `RelationshipResults` grouping (`index.js`): the child
result rows (its `JoinMap` is built from them), the reserved parent-side
join keys, and the cardinality selecting the `processResults` function. -/
structure RelResults where
  results : List ResultRow
  parentJoinKeys : List String
  card : Card
deriving DecidableEq

/-- Model of `singleValue` (`index.js`): no match resolves to `null`, one
match to that value, and two or more matches throw `new Error("TODO")`. -/
def singleValueV : List Value → Except String Value
  | [] => .ok (.scalar .null)
  | [v] => .ok v
  | _ :: _ :: _ => .error "TODO"

/-- The `processResults` post-processor of a relationship: identity
(wrapped as an array value) for `many`, `singleValue` for `single`. -/
def processResultsV (c : Card) (vs : List Value) : Except String Value :=
  match c with
  | .many => .ok (.varr vs)
  | .one => singleValueV vs

/-- Model of `RelationshipResults._parentJoinValues`: read the reserved
parent-side join keys off the parent row. -/
def parentJoinValuesOf (g : RelResults) (parent : Row) : List Value :=
  g.parentJoinKeys.map (fun k => rowGet parent k)

/-- Model of `RelationshipResults.get(parent)`: look the parent's join
values up in the `JoinMap` of the child rows (default `[]`) and
post-process by cardinality. -/
def relResultsGet (g : RelResults) (parent : Row) : Except String Value :=
  processResultsV g.card
    (joinMapGet (g.results.map (fun r => (r.joinValues, r.value)))
      (parentJoinValuesOf g parent) [])

/-- The reserved key naming scheme `"_graphjoiner_joinToChildrenKey_" +
parentKey` for parent-side join selections. -/
def reservedChildKey (parentKey : String) : String :=
  "_graphjoiner_joinToChildrenKey_" ++ parentKey

/-- The reserved key naming scheme `"_graphjoiner_joinToParentKey_" +
childKey` for child-side join selections. -/
def reservedParentKey (childKey : String) : String :=
  "_graphjoiner_joinToParentKey_" ++ childKey

/-- Lookup in a field table (`fields[name]`, `none` for `undefined`). -/
def lookupField (fs : List (String × FieldRef)) (k : String) :
    Option FieldRef :=
  (fs.find? (fun p => decide (p.1 = k))).map (fun p => p.2)

/-- The relationship data of a selection, when its field is a relationship
(`selection.field instanceof Relationship`). -/
def relOf (s : Request) : Option RelData :=
  match s.field with
  | some (.rel r) => some r
  | _ => none

/-- The partition predicate of `JoinType.fetch`. -/
def isRelSel (s : Request) : Bool :=
  (relOf s).isSome

/-- Model of `Relationship.parentJoinSelections(parent)`: one synthetic
request per join-key pair, targeting the parent-side field, keyed by the
reserved naming scheme. -/
def parentJoinSelections (td : TypeDef) (r : RelData) : List Request :=
  r.join.map (fun pc =>
    Request.mk (reservedChildKey pc.1) (lookupField td.fields pc.1) [] [] [])

/-- Parent-side join selections contributed by one relationship selection
(empty for a non-relationship selection, which cannot occur after the
partition). -/
def pjsOfSel (td : TypeDef) (s : Request) : List Request :=
  match relOf s with
  | some r => parentJoinSelections td r
  | none => []

/-- The selection list handed to `fetchImmediates` by `JoinType.fetch`:
`requestedImmediateSelections.concat(request.joinSelections)
.concat(joinToChildrenSelections)` — a plain concatenation. -/
def immediateSelectionsFor (td : TypeDef) (req : Request) : List Request :=
  (req.selections.filter (fun s => !isRelSel s)) ++ req.joinSelections
    ++ (req.selections.filter isRelSel).flatMap (pjsOfSel td)

/-- The environment of one execution: the schema (named `JoinType`s), the
injected immediate-fetch callback per type (receiving the full immediates
request and the select context), and the interpretation of the
relationship `select` callbacks (receiving the relationship's request and
the parent's select context, producing the child select context). -/
structure Env where
  schema : List (String × TypeDef)
  fetchImms : String → Request → Option Nat → List Row
  selectApply : Nat → Request → Option Nat → Nat

/-- Schema lookup; a missing type is a crash in the source, modelled as an
error. -/
def lookupTypeE (env : Env) (n : String) : Except String TypeDef :=
  match env.schema.find? (fun p => decide (p.1 = n)) with
  | some p => .ok p.2
  | none => .error ("unknown type " ++ n)

/-- Model of `joinFields()` on a target: a `JoinType` returns its own field
table; a `ScalarJoinType` delegates to the wrapped target. -/
def targetJoinFieldsE (env : Env) : TargetRef → Except String (List (String × FieldRef))
  | .plain n => (lookupTypeE env n).map TypeDef.fields
  | .scalarJoin t _ => targetJoinFieldsE env t

/-- Model of `fields()` on a target: a `JoinType` returns its field table;
a `ScalarJoinType` returns the wrapped field's target fields when that
field is a relationship and an empty table otherwise.  The relationship
hop is not structural, so fuel bounds the recursion. -/
def targetFieldsE (env : Env) : Nat → TargetRef → Except String (List (String × FieldRef))
  | _, .plain n => (lookupTypeE env n).map TypeDef.fields
  | 0, .scalarJoin _ _ => .error "out of fuel"
  | fuel+1, .scalarJoin t f => do
      let fs ← targetFieldsE env fuel t
      match lookupField fs f with
      | some (.rel r) => targetFieldsE env fuel r.target
      | _ => .ok []

/-- Property projection `result.value[fieldName]` of `ScalarJoinType.fetch`. -/
def valueField (v : Value) (f : String) : Value :=
  match v with
  | .vobj kvs =>
      match kvs.find? (fun p => decide (p.1 = f)) with
      | some p => p.2
      | none => .jsUndefined
  | _ => .jsUndefined

/-- Per-row projection of `ScalarJoinType.fetch`: keep the join values,
replace the value object by its `fieldName` property. -/
def projectRow (f : String) (rr : ResultRow) : ResultRow :=
  { value := valueField rr.value f, joinValues := rr.joinValues }

/-- Row assembly at the end of `JoinType.fetch`: `value` is the object of
the originally requested selection keys, `joinValues` the tuple of this
node's own join-selection keys, read off the (attachment-updated) row. -/
def assembleRow (req : Request) (row : Row) : ResultRow :=
  { value := .vobj (req.selections.map (fun s => (s.key, rowGet row s.key))),
    joinValues := req.joinSelections.map (fun s => rowGet row s.key) }

/-- The attachment loop `results.forEach(result => result[key] =
children.get(result))` for one relationship selection; a grouping lookup
can throw (`singleValue`), which rejects the whole fetch. -/
def attachRows (g : RelResults) (key : String) : List Row → Except String (List Row)
  | [] => .ok []
  | row :: rest => do
      let v ← relResultsGet g row
      let rest' ← attachRows g key rest
      .ok (rowSet row key v :: rest')

/-- A pending engine call: fetching a target (`JoinType.fetch` or
`ScalarJoinType.fetch`), fetching a relationship (`Relationship.fetch`), or
the per-node loop attaching every relationship selection's children to the
fetched rows. -/
inductive Call where
  | target (t : TargetRef) (req : Request) (sel : Option Nat)
  | rel (r : RelData) (req : Request) (selectParent : Option Nat)
  | attach (sels : List Request) (rows : List Row) (sel : Option Nat)

/-- The trace of one node's resolution: its type name, the keys of the
selection list passed to the injected immediate-fetch callback, and one
entry (key and child trace) per relationship fetch issued at the node. -/
inductive Trace where
  | node (typeName : String) (immKeys : List String) (rels : List (String × Trace))

/-- The keys of the relationship fetches issued at a node. -/
def Trace.relKeys : Trace → List String
  | .node _ _ rels => rels.map (fun p => p.1)

/-- The keys of the selection list passed to the immediate-fetch callback
at a node. -/
def Trace.immKeys : Trace → List String
  | .node _ ks _ => ks

/-- The result of an engine call. -/
inductive Out where
  | rows (rs : List ResultRow) (tr : Trace)
  | grouping (g : RelResults) (tr : Trace)
  | attached (rows : List Row) (trs : List (String × Trace))

/-- The recursive field-resolution engine, fuel-indexed so that the
recursion is structural on the fuel (one unit per recursive hop):

* `.target (.plain name)` is `JoinType.fetch(request, select)`: partition
  the selections, hand the concatenated immediates request to the injected
  callback, fetch every relationship selection exactly once and attach its
  grouping to every row, then assemble the result rows;
* `.target (.scalarJoin t f)` is `ScalarJoinType.fetch`: re-wrap the
  request with the single synthetic field request and project the result
  rows onto the field;
* `.rel r` is `Relationship.fetch(request, selectParent)`: build the child
  request with the reserved child-side join selections, apply the `select`
  callback, fetch the target and wrap the rows as a grouping;
* `.attach` is the per-node loop over relationship selections. -/
def run (env : Env) : Nat → Call → Except String Out
  | _, .attach [] rows _ => .ok (.attached rows [])
  | 0, _ => .error "out of fuel"
  | fuel+1, .target (.scalarJoin t f) req sel => do
      let fs ← targetFieldsE env (fuel+1) t
      let out ← run env fuel
        (.target t (req.withSelections
          [Request.mk f (lookupField fs f) [] req.selections []]) sel)
      match out with
      | .rows rs tr => .ok (.rows (rs.map (projectRow f)) tr)
      | _ => .error "internal"
  | fuel+1, .target (.plain name) req sel => do
      let td ← lookupTypeE env name
      let immediateSels := immediateSelectionsFor td req
      let results := env.fetchImms name (req.withSelections immediateSels) sel
      let out ← run env fuel (.attach (req.selections.filter isRelSel) results sel)
      match out with
      | .attached rows trs =>
          .ok (.rows (rows.map (assembleRow req))
            (.node name (immediateSels.map Request.key) trs))
      | _ => .error "internal"
  | fuel+1, .rel r req selectParent => do
      let joinFields ← targetJoinFieldsE env r.target
      let childReq := req.withJoinSelections (r.join.map (fun pc =>
        Request.mk (reservedParentKey pc.2) (lookupField joinFields pc.2) [] [] []))
      let select := env.selectApply r.selectTag req selectParent
      let out ← run env fuel (.target r.target childReq (some select))
      match out with
      | .rows childRows tr =>
          .ok (.grouping
            { results := childRows,
              parentJoinKeys := r.join.map (fun pc => reservedChildKey pc.1),
              card := r.card } tr)
      | _ => .error "internal"
  | fuel+1, .attach (s :: rest) rows sel =>
      match relOf s with
      | some r => do
          let out ← run env fuel (.rel r s sel)
          match out with
          | .grouping g tr => do
              let rows' ← attachRows g s.key rows
              let out2 ← run env fuel (.attach rest rows' sel)
              match out2 with
              | .attached rows'' trs => .ok (.attached rows'' ((s.key, tr) :: trs))
              | _ => .error "internal"
          | _ => .error "internal"
      | none => run env fuel (.attach rest rows sel)

/-- Model of `extract(relationship, fieldName)` (`index.js`): the same
relationship data (same join pairs, cardinality / `processResults`,
`select` callback and arguments) with the target wrapped in a
`ScalarJoinType` projecting `fieldName`. -/
def extractRel (r : RelData) (f : String) : RelData :=
  { r with target := .scalarJoin r.target f }

/-! ### Theorems for the claims -/

/-- C2: for every `JoinMap` built from `{joinValues, value}` entries and
every lookup key, `get` returns exactly the values of the entries whose
`joinValues` tuple is element-wise equal to the key, with type-sensitive
equality; in particular a lookup with `["1"]` never returns a value stored
under `[1]` and vice versa. -/
theorem joinMap_get_exact_typed :
    (∀ (α : Type) (results : List (JoinMapEntry α)) (key : List Scalar),
        JoinMapEntry.get results key []
          = (results.filter (fun r => decide (r.joinValues = key))).map
              (fun r => r.value))
    ∧ JoinMapEntry.get
        [⟨[Scalar.str "1"], (1 : Nat)⟩, ⟨[Scalar.int 1], 2⟩] [Scalar.str "1"] []
        = [1]
    ∧ JoinMapEntry.get
        [⟨[Scalar.str "1"], (1 : Nat)⟩, ⟨[Scalar.int 1], 2⟩] [Scalar.int 1] []
        = [2] := by
  refine ⟨fun α results key => ?_, by rfl, by rfl⟩
  unfold JoinMapEntry.get
  exact joinMapGet_filter results (fun r => r.joinValues) (fun r => r.value) key

/-- The child values matching a parent, by element-wise (type-sensitive)
equality of the join tuple with the parent's join values. -/
def matchingValues (g : RelResults) (parent : Row) : List Value :=
  (g.results.filter
    (fun r => decide (r.joinValues = parentJoinValuesOf g parent))).map
    (fun r => r.value)

/-- C3: for a `single`-cardinality relationship, the grouping lookup at a
parent's join values resolves to `null` when no child row matches, to the
unique child value when exactly one matches, and throws (`Error("TODO")`,
not a silent truncation) when two or more match. -/
theorem single_relationship_lookup (g : RelResults) (parent : Row)
    (hone : g.card = Card.one) :
    (matchingValues g parent = [] →
        relResultsGet g parent = .ok (Value.scalar Scalar.null))
    ∧ (∀ v, matchingValues g parent = [v] → relResultsGet g parent = .ok v)
    ∧ (2 ≤ (matchingValues g parent).length →
        relResultsGet g parent = .error "TODO") := by
  have hm : joinMapGet (g.results.map (fun r => (r.joinValues, r.value)))
      (parentJoinValuesOf g parent) [] = matchingValues g parent :=
    joinMapGet_filter g.results (fun r => r.joinValues) (fun r => r.value)
      (parentJoinValuesOf g parent)
  unfold relResultsGet
  rw [hm, hone]
  refine ⟨fun h => ?_, fun v h => ?_, fun h => ?_⟩
  · rw [h]; rfl
  · rw [h]; rfl
  · cases hmv : matchingValues g parent with
    | nil => rw [hmv] at h; simp at h
    | cons a t =>
        cases t with
        | nil => rw [hmv] at h; simp at h
        | cons b t2 => rfl

def wSingleG : RelResults :=
  ⟨[⟨.scalar (.str "x"), [.scalar (.int 1)]⟩,
    ⟨.scalar (.str "y"), [.scalar (.int 2)]⟩,
    ⟨.scalar (.str "z"), [.scalar (.int 2)]⟩],
   [reservedChildKey "id"], .one⟩

def wParentNone : Row := [(reservedChildKey "id", .scalar (.int 0))]

def wParentUnique : Row := [(reservedChildKey "id", .scalar (.int 1))]

def wParentAmbiguous : Row := [(reservedChildKey "id", .scalar (.int 2))]

/-- Witness for `single_relationship_lookup` at a concrete grouping: a
parent with zero matches resolves to `null`, one with a unique match to
that value, one with two matches to the `"TODO"` error. -/
theorem single_relationship_lookup_witness :
    relResultsGet wSingleG wParentNone = .ok (Value.scalar Scalar.null)
    ∧ relResultsGet wSingleG wParentUnique = .ok (.scalar (.str "x"))
    ∧ relResultsGet wSingleG wParentAmbiguous = .error "TODO" :=
  ⟨(single_relationship_lookup wSingleG wParentNone rfl).1 rfl,
   (single_relationship_lookup wSingleG wParentUnique rfl).2.1 _ rfl,
   (single_relationship_lookup wSingleG wParentAmbiguous rfl).2.2 (by decide)⟩

/-- C4: when two collected selections produce the same output key and both
carry sub-selection sets, `mergeFields` merges them into one selection
whose sub-selection set is the concatenation of both (in order) and whose
field name and arguments are those of the first occurrence. -/
theorem mergeFields_merges_same_key (a1 a2 : Option String) (n1 n2 : String)
    (args1 args2 : List (String × Scalar)) (ds1 ds2 : List Directive)
    (ss1 ss2 : List SelNode) (hkey : a1.getD n1 = a2.getD n2) :
    mergeFields [.field a1 n1 args1 ds1 (some ss1),
                 .field a2 n2 args2 ds2 (some ss2)]
      = .ok [.field a1 n1 args1 ds1 (some (ss1 ++ ss2))] := by
  simp [mergeFields, mergeGo, selKeyOpt, SelNode.subSelections,
    pushSubselections, hkey]
  rfl

def wMergeSub1 : SelNode := .field none "x" [] [] none

def wMergeSub2 : SelNode := .field none "y" [] [] none

/-- Witness for `mergeFields_merges_same_key` at concrete selections: two
fields with the same alias but different names and arguments merge into one
node keeping the first occurrence's name and arguments and concatenating
the sub-selections. -/
theorem mergeFields_merges_same_key_witness :
    mergeFields [.field (some "k") "foo" [("a", .int 1)] [] (some [wMergeSub1]),
                 .field (some "k") "bar" [("a", .int 2)] [] (some [wMergeSub2])]
      = .ok [.field (some "k") "foo" [("a", .int 1)] []
              (some [wMergeSub1, wMergeSub2])] :=
  mergeFields_merges_same_key (some "k") (some "k") "foo" "bar"
    [("a", .int 1)] [("a", .int 2)] [] [] [wMergeSub1] [wMergeSub2] rfl

/-- C10: when the first collected selection with a key has no sub-selection
set and a later one with the same key does, `mergeFields` dereferences the
absent sub-selection set of the first occurrence and crashes instead of
producing a merged node. -/
theorem mergeFields_crashes_without_first_subselections :
    mergeFields [.field none "a" [] [] none,
                 .field none "a" [] [] (some [.field none "b" [] [] none])]
      = .error "TypeError: cannot read selections of undefined" := by
  rfl

theorem collectRun_expand_nil (frags : List (String × List SelNode))
    (fuel : Nat) : collectRun frags fuel (.expand []) = .ok [] := by
  cases fuel <;> rfl

/-- C5: during selection collection, a selection whose first directive is
`include` with `if` resolved to `false`, or `skip` with `if` resolved to
`true`, is dropped from the collected selections, and a selection whose
first directive has any other name makes collection fail with the
unknown-directive error. -/
theorem directive_filtering (frags : List (String × List SelNode))
    (fuel : Nat) (s : SelNode) (ds : List Directive) :
    (s.directives = ⟨"include", some false⟩ :: ds →
        collectFields frags (fuel+1) [s] = .ok [])
    ∧ (s.directives = ⟨"skip", some true⟩ :: ds →
        collectFields frags (fuel+1) [s] = .ok [])
    ∧ (∀ nm arg, nm ≠ "include" → nm ≠ "skip" →
        s.directives = ⟨nm, arg⟩ :: ds →
        collectFields frags (fuel+1) [s]
          = .error (.unknownDirective nm)) := by
  refine ⟨fun h => ?_, fun h => ?_, fun nm arg h1 h2 h => ?_⟩
  · simp [collectFields, collectRun, filterIncluded, shouldIncludeNode, h,
      shouldIncludeDirs]
    exact collectRun_expand_nil frags fuel
  · simp [collectFields, collectRun, filterIncluded, shouldIncludeNode, h,
      shouldIncludeDirs]
    exact collectRun_expand_nil frags fuel
  · simp [collectFields, collectRun, filterIncluded, shouldIncludeNode, h,
      shouldIncludeDirs, h1, h2]
    rfl

def wIncludeFalse : SelNode := .field none "x" [] [⟨"include", some false⟩] none

def wSkipTrue : SelNode := .field none "y" [] [⟨"skip", some true⟩] none

def wUnknownDir : SelNode := .field none "z" [] [⟨"once", none⟩] none

/-- Witness for `directive_filtering` at concrete selections. -/
theorem directive_filtering_witness :
    collectFields [] 1 [wIncludeFalse] = .ok []
    ∧ collectFields [] 1 [wSkipTrue] = .ok []
    ∧ collectFields [] 1 [wUnknownDir] = .error (.unknownDirective "once") :=
  ⟨(directive_filtering [] 0 wIncludeFalse []).1 rfl,
   (directive_filtering [] 0 wSkipTrue []).2.1 rfl,
   (directive_filtering [] 0 wUnknownDir []).2.2 "once" none (by decide)
     (by decide) rfl⟩

/-- A fragment `F` whose selection set is just a spread of `F` itself, and
a query selecting `...F`: the minimal fragment cycle. -/
def cyclicFragments : List (String × List SelNode) :=
  [("F", [SelNode.fragmentSpread "F" []])]

def cyclicSelections : List SelNode := [SelNode.fragmentSpread "F" []]

/-- C6: on a query document with a fragment cycle, `addFields` follows the
spread with no cycle check, so selection collection never terminates: for
every fuel bound the fuel-indexed model exhausts its fuel (it neither
succeeds nor reports a cycle error), refuting the claim that request-tree
construction terminates with an error. -/
theorem fragment_cycle_diverges :
    ∀ fuel : Nat,
      collectFields cyclicFragments fuel cyclicSelections
        = .error CollectError.outOfFuel
      ∧ collectRun cyclicFragments fuel (.expand cyclicSelections)
        = .error CollectError.outOfFuel := by
  intro fuel
  induction fuel with
  | zero => exact ⟨rfl, rfl⟩
  | succ n ih =>
      refine ⟨ih.2, ?_⟩
      have hcol : collectRun cyclicFragments n
          (.collect [SelNode.fragmentSpread "F" []])
          = .error CollectError.outOfFuel := ih.1
      show (do
        let y ← collectRun cyclicFragments n
          (.collect [SelNode.fragmentSpread "F" []])
        let rest' ← collectRun cyclicFragments n (.expand [])
        Except.ok (y ++ rest'))
        = Except.error CollectError.outOfFuel
      rw [hcol]
      rfl

@[simp] theorem exceptBind_ok {ε α β : Type} (a : α) (f : α → Except ε β) :
    (Except.ok a >>= f) = f a := rfl

@[simp] theorem exceptBind_error {ε α β : Type} (e : ε) (f : α → Except ε β) :
    ((Except.error e : Except ε α) >>= f) = .error e := rfl

theorem run_attach_nil (env : Env) (fuel : Nat) (rows : List Row)
    (sel : Option Nat) :
    run env fuel (.attach [] rows sel) = .ok (.attached rows []) := by
  cases fuel <;> rfl

theorem run_attach_keys (env : Env) :
    ∀ (sels : List Request) (fuel : Nat) (rows : List Row) (sel : Option Nat)
      (rows' : List Row) (trs : List (String × Trace)),
      (∀ s ∈ sels, isRelSel s = true) →
      run env fuel (.attach sels rows sel) = .ok (.attached rows' trs) →
      trs.map (fun p => p.1) = sels.map Request.key := by
  intro sels
  induction sels with
  | nil =>
      intro fuel rows sel rows' trs hall h
      rw [run_attach_nil] at h
      simp only [Except.ok.injEq, Out.attached.injEq] at h
      simp [← h.2]
  | cons s rest ih =>
      intro fuel rows sel rows' trs hall h
      have hs : isRelSel s = true := hall s (by simp)
      obtain ⟨r, hr⟩ : ∃ r, relOf s = some r := by
        unfold isRelSel at hs
        cases hrel : relOf s
        · rw [hrel] at hs; simp at hs
        · exact ⟨_, rfl⟩
      cases fuel with
      | zero => simp [run] at h
      | succ n =>
          simp only [run, hr] at h
          cases hout : run env n (.rel r s sel) with
          | error e => rw [hout] at h; simp at h
          | ok out =>
              rw [hout] at h
              cases out with
              | rows _ _ => simp at h
              | attached _ _ => simp at h
              | grouping g tr =>
                  simp only [exceptBind_ok] at h
                  cases hrows : attachRows g s.key rows with
                  | error e => rw [hrows] at h; simp at h
                  | ok rows2 =>
                      rw [hrows] at h
                      simp only [exceptBind_ok] at h
                      cases hout2 : run env n (.attach rest rows2 sel) with
                      | error e => rw [hout2] at h; simp at h
                      | ok out2 =>
                          rw [hout2] at h
                          cases out2 with
                          | rows _ _ => simp at h
                          | grouping _ _ => simp at h
                          | attached rows3 trs2 =>
                              simp only [exceptBind_ok, Except.ok.injEq,
                                Out.attached.injEq] at h
                              have hrest : trs2.map (fun p => p.1)
                                  = rest.map Request.key :=
                                ih n rows2 sel rows3 trs2
                                  (fun x hx => hall x (by simp [hx])) hout2
                              rw [← h.2]
                              simp [hrest]

/-- C1: at every resolved tree node, the engine issues exactly one
relationship fetch per relationship selection — the node's trace records
one relationship-fetch entry per relationship selection, in order,
whatever the injected immediate-fetch callback returns (0, 1 or N parent
rows); children are attached to parent rows via the grouping built by that
single fetch. -/
theorem relationship_fetched_once (env : Env) (fuel : Nat) (name : String)
    (req : Request) (sel : Option Nat) (rs : List ResultRow) (tr : Trace)
    (h : run env fuel (.target (.plain name) req sel) = .ok (.rows rs tr)) :
    tr.relKeys = (req.selections.filter isRelSel).map Request.key := by
  cases fuel with
  | zero => simp [run] at h
  | succ n =>
      simp only [run] at h
      cases htd : lookupTypeE env name with
      | error e => rw [htd] at h; simp at h
      | ok td =>
          rw [htd] at h
          simp only [exceptBind_ok] at h
          cases hout : run env n (.attach (req.selections.filter isRelSel)
              (env.fetchImms name
                (req.withSelections (immediateSelectionsFor td req)) sel) sel) with
          | error e => rw [hout] at h; simp at h
          | ok out =>
              rw [hout] at h
              cases out with
              | rows _ _ => simp at h
              | grouping _ _ => simp at h
              | attached rows trs =>
                  simp only [exceptBind_ok, Except.ok.injEq, Out.rows.injEq] at h
                  have hkeys : trs.map (fun p => p.1)
                      = (req.selections.filter isRelSel).map Request.key :=
                    run_attach_keys env (req.selections.filter isRelSel) n _ sel
                      rows trs (fun x hx => (List.mem_filter.mp hx).2) hout
                  rw [← h.2]
                  simp [Trace.relKeys, hkeys]

/-! ### A concrete author/books schema used by the engine witnesses -/

def bookRel : RelData := ⟨.plain "Book", [("id", "authorId")], .many, 0⟩

def authorTd : TypeDef :=
  ⟨[("id", .immediate "id"), ("name", .immediate "name"),
    ("books", .rel bookRel)]⟩

def bookTd : TypeDef :=
  ⟨[("id", .immediate "id"), ("title", .immediate "title"),
    ("authorId", .immediate "authorId")]⟩

/-- An injected immediate-fetch callback: two author rows, three book rows
(two for author 1, one for author 2), each exposing a property per
requested selection key, join columns included. -/
def demoFetch : String → Request → Option Nat → List Row :=
  fun name _ _ =>
    if name = "Author" then
      [[("id", .scalar (.int 1)), ("name", .scalar (.str "PGW")),
        (reservedChildKey "id", .scalar (.int 1))],
       [("id", .scalar (.int 2)), ("name", .scalar (.str "JA")),
        (reservedChildKey "id", .scalar (.int 2))]]
    else if name = "Book" then
      [[("title", .scalar (.str "Leave it to Psmith")),
        (reservedParentKey "authorId", .scalar (.int 1))],
       [("title", .scalar (.str "Right Ho, Jeeves")),
        (reservedParentKey "authorId", .scalar (.int 1))],
       [("title", .scalar (.str "Pride and Prejudice")),
        (reservedParentKey "authorId", .scalar (.int 2))]]
    else []

def demoEnv : Env :=
  ⟨[("Author", authorTd), ("Book", bookTd)], demoFetch, fun _ _ _ => 0⟩

/-- The same environment with an immediate-fetch callback that returns no
rows at all: the relationship count must be unchanged. -/
def demoEnvNoRows : Env :=
  ⟨[("Author", authorTd), ("Book", bookTd)], fun _ _ _ => [], fun _ _ _ => 0⟩

def titleSel : Request := .mk "title" (some (.immediate "title")) [] [] []

def demoReq : Request :=
  .mk "root" none []
    [.mk "id" (some (.immediate "id")) [] [] [],
     .mk "name" (some (.immediate "name")) [] [] [],
     .mk "books" (some (.rel bookRel)) [] [titleSel] []]
    []

def demoOut : Except String Out :=
  run demoEnv 5 (.target (.plain "Author") demoReq none)

def demoRows : List ResultRow :=
  match demoOut with
  | .ok (.rows rs _) => rs
  | _ => []

def demoTrace : Trace :=
  match demoOut with
  | .ok (.rows _ t) => t
  | _ => .node "" [] []

def demoOutNoRows : Except String Out :=
  run demoEnvNoRows 5 (.target (.plain "Author") demoReq none)

def demoRowsNoRows : List ResultRow :=
  match demoOutNoRows with
  | .ok (.rows rs _) => rs
  | _ => []

def demoTraceNoRows : Trace :=
  match demoOutNoRows with
  | .ok (.rows _ t) => t
  | _ => .node "" [] []

/-- Witness for `relationship_fetched_once`: on the author/books schema the
trace records exactly one `books` fetch, both with two parent rows and with
zero parent rows. -/
theorem relationship_fetched_once_witness :
    Trace.relKeys demoTrace
      = (demoReq.selections.filter isRelSel).map Request.key
    ∧ Trace.relKeys demoTraceNoRows
      = (demoReq.selections.filter isRelSel).map Request.key
    ∧ Trace.relKeys demoTrace = ["books"] :=
  ⟨relationship_fetched_once demoEnv 5 "Author" demoReq none demoRows
      demoTrace rfl,
   relationship_fetched_once demoEnvNoRows 5 "Author" demoReq none
      demoRowsNoRows demoTraceNoRows rfl,
   rfl⟩

/-- C7 amended: the selection list handed to the injected immediate-fetch
callback is the plain concatenation of the requested immediate selections,
the caller-demanded `joinSelections`, and the parent-side join selections
of every relationship selection, in that order and with no de-duplication
by key. -/
theorem immediates_passed_concat (env : Env) (fuel : Nat) (name : String)
    (req : Request) (sel : Option Nat) (rs : List ResultRow) (tr : Trace)
    (td : TypeDef) (htd : lookupTypeE env name = .ok td)
    (h : run env fuel (.target (.plain name) req sel) = .ok (.rows rs tr)) :
    tr.immKeys
      = ((req.selections.filter (fun s => !isRelSel s))
          ++ req.joinSelections
          ++ (req.selections.filter isRelSel).flatMap (pjsOfSel td)).map
          Request.key := by
  cases fuel with
  | zero => simp [run] at h
  | succ n =>
      simp only [run] at h
      rw [htd] at h
      simp only [exceptBind_ok] at h
      cases hout : run env n (.attach (req.selections.filter isRelSel)
          (env.fetchImms name
            (req.withSelections (immediateSelectionsFor td req)) sel) sel) with
      | error e => rw [hout] at h; simp at h
      | ok out =>
          rw [hout] at h
          cases out with
          | rows _ _ => simp at h
          | grouping _ _ => simp at h
          | attached rows trs =>
              simp only [exceptBind_ok, Except.ok.injEq, Out.rows.injEq] at h
              rw [← h.2]
              simp [Trace.immKeys, immediateSelectionsFor]

def petRel : RelData := ⟨.plain "Pet", [("id", "ownerId")], .many, 1⟩

def dupTd : TypeDef :=
  ⟨[("id", .immediate "id"), ("books", .rel bookRel), ("pets", .rel petRel)]⟩

def dupReq : Request :=
  .mk "root" none []
    [.mk "books" (some (.rel bookRel)) [] [] [],
     .mk "pets" (some (.rel petRel)) [] [] []]
    []

def dupEnv : Env :=
  ⟨[("Author", dupTd), ("Book", bookTd),
    ("Pet", ⟨[("ownerId", .immediate "ownerId")]⟩)],
   fun _ _ _ => [], fun _ _ _ => 0⟩

def dupOut : Except String Out :=
  run dupEnv 5 (.target (.plain "Author") dupReq none)

def dupImmKeys : List String :=
  match dupOut with
  | .ok (.rows _ t) => t.immKeys
  | _ => []

/-- C7 counterexample: two sibling relationships both joining on the parent
key `id` make the engine pass two selections with the same key
`_graphjoiner_joinToChildrenKey_id` to the immediate-fetch callback — the
list is not de-duplicated by key. -/
theorem immediates_share_keys :
    dupImmKeys = [reservedChildKey "id", reservedChildKey "id"]
    ∧ ¬ dupImmKeys.Nodup :=
  ⟨rfl, by decide⟩

/-- Witness for `immediates_passed_concat` on the author/books schema. -/
theorem immediates_passed_concat_witness :
    Trace.immKeys demoTrace
      = ((demoReq.selections.filter (fun s => !isRelSel s))
          ++ demoReq.joinSelections
          ++ (demoReq.selections.filter isRelSel).flatMap (pjsOfSel authorTd)).map
          Request.key :=
  immediates_passed_concat demoEnv 5 "Author" demoReq none demoRows demoTrace
    authorTd rfl rfl

def shadowReq : Request :=
  .mk "root" none []
    [.mk (reservedChildKey "id") (some (.immediate "id")) [] [] [],
     .mk "books" (some (.rel bookRel)) [] [] []]
    []

/-- C9 counterexample: a user-chosen alias equal to
`_graphjoiner_joinToChildrenKey_id` coincides with the synthetic
parent-side join-selection key of a sibling relationship joining on `id`:
the reserved naming scheme is a string-prefix convention, not
collision-free. -/
theorem user_alias_shadows_join_key :
    reservedChildKey "id"
        ∈ (parentJoinSelections authorTd bookRel).map Request.key
    ∧ reservedChildKey "id" ∈ shadowReq.selections.map Request.key := by
  exact ⟨by decide, by decide⟩

/-- C9 amended: as long as no user-chosen output key is of the reserved
form `"_graphjoiner_joinToChildrenKey_" ++ p`, the synthetic parent-side
join-selection keys are distinct from every user-chosen key. -/
theorem join_keys_not_shadowed (td : TypeDef) (r : RelData)
    (userKeys : List String)
    (hres : ∀ k ∈ userKeys, ∀ p, k ≠ reservedChildKey p) :
    ∀ sk ∈ (parentJoinSelections td r).map Request.key, sk ∉ userKeys := by
  intro sk hsk hmem
  simp only [parentJoinSelections, List.map_map, List.mem_map] at hsk
  obtain ⟨pc, _, hkey⟩ := hsk
  exact hres sk hmem pc.1 (by rw [← hkey]; rfl)

def plainUserKeys : List String := ["id", "name"]

/-- Witness for `join_keys_not_shadowed`: ordinary user keys are never hit
by the reserved synthetic keys. -/
theorem join_keys_not_shadowed_witness :
    reservedChildKey "id" ∉ plainUserKeys :=
  join_keys_not_shadowed authorTd bookRel plainUserKeys
    (by
      intro k hk p h
      have hlen := congrArg String.length h
      rw [show reservedChildKey p
          = "_graphjoiner_joinToChildrenKey_" ++ p from rfl,
        String.length_append,
        show ("_graphjoiner_joinToChildrenKey_".length) = 31 from rfl] at hlen
      simp only [plainUserKeys, List.mem_cons, List.mem_singleton,
        List.not_mem_nil, or_false] at hk
      rcases hk with rfl | rfl
      · rw [show ("id".length) = 2 from rfl] at hlen
        omega
      · rw [show ("name".length) = 4 from rfl] at hlen
        omega)
    (reservedChildKey "id") (by decide)

@[simp] theorem exceptMap_ok {ε α β : Type} (f : α → β) (a : α) :
    (f <$> (Except.ok a : Except ε α)) = .ok (f a) := rfl

@[simp] theorem exceptMap_error {ε α β : Type} (f : α → β) (e : ε) :
    (f <$> (Except.error e : Except ε α)) = .error e := rfl

/-- Per-grouping projection: the grouping `extract` produces is the
underlying grouping with every result row's value replaced by its
`fieldName` property (join keys and cardinality untouched). -/
def projectGrouping (f : String) (g : RelResults) : RelResults :=
  { g with results := g.results.map (projectRow f) }

def projectOut (f : String) : Out → Out
  | .grouping g tr => .grouping (projectGrouping f g) tr
  | o => o

/-- C8: the field produced by `extract(relationship, f)` keeps the
relationship's join pairs, cardinality post-processing and `select`
callback, and its fetch is the underlying relationship's fetch — issued on
the request that asks exactly for the synthetic field request of `f` —
with every per-row child value projected onto `f` and the trace (hence the
set of fetches issued) unchanged: no additional fetch occurs. -/
theorem extract_projects_underlying_fetch (env : Env) (fuel : Nat)
    (r : RelData) (f : String) (req : Request) (sp : Option Nat)
    (jf fs : List (String × FieldRef))
    (hjf : targetJoinFieldsE env r.target = .ok jf)
    (hfs : targetFieldsE env fuel r.target = .ok fs)
    (hsel : env.selectApply r.selectTag req sp
      = env.selectApply r.selectTag
          (req.withSelections
            [Request.mk f (lookupField fs f) [] req.selections []]) sp) :
    (extractRel r f).join = r.join
    ∧ (extractRel r f).card = r.card
    ∧ (extractRel r f).selectTag = r.selectTag
    ∧ run env (fuel+1) (.rel (extractRel r f) req sp)
      = projectOut f <$>
          run env fuel
            (.rel r (req.withSelections
              [Request.mk f (lookupField fs f) [] req.selections []]) sp) := by
  refine ⟨rfl, rfl, rfl, ?_⟩
  cases req with
  | mk k fld a sels js =>
      cases fuel with
      | zero =>
          simp only [run]
          rw [show targetJoinFieldsE env (extractRel r f).target
              = targetJoinFieldsE env r.target from rfl, hjf]
          simp [run]
      | succ n =>
          have hjf' : targetJoinFieldsE env (extractRel r f).target = .ok jf := hjf
          simp only [Request.withSelections, Request.selections] at hsel
          simp only [run, Request.withSelections, Request.withJoinSelections,
            Request.selections, hjf, hjf', hfs, exceptBind_ok]
          rw [show (extractRel r f).join = r.join from rfl,
            show (extractRel r f).selectTag = r.selectTag from rfl,
            show (extractRel r f).card = r.card from rfl, ← hsel]
          cases hinner : run env n (.target r.target
              (Request.mk k fld a
                [Request.mk f (lookupField fs f) [] sels []]
                (r.join.map (fun pc =>
                  Request.mk (reservedParentKey pc.2)
                    (lookupField jf pc.2) [] [] [])))
              (some (env.selectApply r.selectTag
                (Request.mk k fld a sels js) sp))) with
          | error e => rfl
          | ok out =>
              cases out with
              | rows rs tr => rfl
              | grouping g tr => rfl
              | attached rows trs => rfl

def wExtractReq : Request :=
  .mk "bookTitles" (some (.rel (extractRel bookRel "title"))) [] [] []

/-- Witness for `extract_projects_underlying_fetch`: extracting `title`
from the author→books relationship equals the relationship's own fetch of
`title` with each row's value projected onto `title`. -/
theorem extract_projects_underlying_fetch_witness :
    run demoEnv 4 (.rel (extractRel bookRel "title") wExtractReq none)
      = projectOut "title" <$>
          run demoEnv 3
            (.rel bookRel
              (wExtractReq.withSelections
                [Request.mk "title" (lookupField bookTd.fields "title") []
                  wExtractReq.selections []]) none) :=
  (extract_projects_underlying_fetch demoEnv 3 bookRel "title" wExtractReq
    none bookTd.fields bookTd.fields rfl rfl rfl).2.2.2

end GraphJoiner
